import Mathlib

/-!
Shallow embedding of the two core components of the RIA OCR corrector
(`src/ria.py`; the page-synthesis half is duplicated verbatim in
`src/ocr_app.py` as `build_searchable_pdf` / `_insert_invisible_text`):

* the Correction Engine: `RULES`, `PageCorrector._apply_rules`,
  `DOC_ID_RE`, `_fix_digit_seg`, `_fix_doc_id`,
  `PageCorrector._apply_id_fixes`, `PageCorrector.correct`;
* the Searchable-Page Synthesizer: `_insert_invisible_text` and
  `build_pdf`.

Text is modelled as `List Char`.  The Python regular expressions are
embedded as executable matchers over `List Char`: the twelve fixed rule
patterns by a small pattern language (`RulePat`) with an interpreter
`matchRuleAt`, and the document-id pattern `DOC_ID_RE` by a greedy
backtracking matcher (`matchDocIdAt`) that tries, for every bounded
quantifier, the longest repetition first — exactly the CPython engine's
strategy.  `re.subn` / `re.sub` left-to-right non-overlapping scanning is
`pySub` / `pyCount` / `docIdSubText` / `docIdMatches`.  The character
classes `\d` and `\w` are modelled at their ASCII meaning (all texts in
scope are ASCII).  Floating-point page geometry is modelled over `ℚ`
(`10 * 1.4` is taken as the exact `14`); no comparison appearing in a
claim is anywhere near floating-point error of a boundary.
-/

set_option maxRecDepth 4000

namespace Ria

/-- The class `\w` at ASCII: letters, digits, underscore. -/
def isWordChar (c : Char) : Bool := c.isAlphanum || c = '_'

/-- The class `[0-9]`, ASCII `\d`. -/
def isDigitChar (c : Char) : Bool := c.isDigit

/-! ### The rule patterns (src/ria.py lines 72-96)

The twelve `RULES` use only four regex shapes, captured by `RulePat`:
a plain literal, a literal prefix followed by a greedy `{1,2}` repetition
of a character class, a character class followed by a literal, a literal
then one class character then a literal, and a literal guarded by the
lookahead `(?=[^0-9])` (which consumes nothing). -/

inductive RulePat where
  | lit (l : List Char)
  | preRep (pre : List Char) (cls : List Char)
  | clsLit (cls : List Char) (suf : List Char)
  | litClsLit (pre : List Char) (cls : List Char) (suf : List Char)
  | litLookNonDigit (l : List Char)
deriving DecidableEq

/-- Try to match a rule pattern at the head of `s`; return the number of
characters consumed.  Greedy `{1,2}` prefers two class characters; the
lookahead of `litLookNonDigit` requires a following non-digit character
but consumes only the literal. -/
def matchRuleAt : RulePat → List Char → Option Nat
  | .lit l, s => if l.isPrefixOf s then some l.length else none
  | .preRep pre cls, s =>
    if pre.isPrefixOf s then
      match s.drop pre.length with
      | c1 :: c2 :: _ =>
        if c1 ∈ cls then
          if c2 ∈ cls then some (pre.length + 2) else some (pre.length + 1)
        else none
      | [c1] => if c1 ∈ cls then some (pre.length + 1) else none
      | [] => none
    else none
  | .clsLit cls suf, s =>
    match s with
    | c :: rest =>
      if c ∈ cls ∧ suf.isPrefixOf rest then some (1 + suf.length) else none
    | [] => none
  | .litClsLit pre cls suf, s =>
    if pre.isPrefixOf s then
      match s.drop pre.length with
      | c :: rest =>
        if c ∈ cls ∧ suf.isPrefixOf rest then
          some (pre.length + 1 + suf.length)
        else none
      | [] => none
    else none
  | .litLookNonDigit l, s =>
    if l.isPrefixOf s then
      match s.drop l.length with
      | c :: _ => if c.isDigit then none else some l.length
      | [] => none
    else none

/-- One correction rule: pattern, literal replacement, and the
`(pat.pattern, repl, label)` strings recorded in the report. -/
structure Rule where
  pat : RulePat
  repl : List Char
  patStr : String
  label : String
deriving DecidableEq

/-- The ordered rule table `RULES` (src/ria.py lines 72-96). -/
def RULES : List Rule := [
  ⟨.lit "0002B".data, "00028".data, "0002B", "0002B → 00028  [B↔8]"⟩,
  ⟨.lit "OOI".data, "001".data, "OOI", "OOI → 001      [O=0, I=1]"⟩,
  ⟨.preRep "PR".data ['I', '1', 'l'], "PR1".data,
    "PR[I1l]\x7b1,2\x7d", "PR\x7bI|II|1\x7d → PR1"⟩,
  ⟨.preRep "IN".data ['I', '1', 'l'], "IN1".data,
    "IN[I1l]\x7b1,2\x7d", "IN\x7bI|II|1\x7d → IN1"⟩,
  ⟨.preRep "GR".data ['I', '1', 'l'], "GR1".data,
    "GR[I1l]\x7b1,2\x7d", "GR\x7bI|II|1\x7d → GR1"⟩,
  ⟨.clsLit ['1', 'I', 'l'] "N2".data, "IN2".data, "[1Il]N2", "[1/I]N2 → IN2"⟩,
  ⟨.clsLit ['1', 'I', 'l'] "N1".data, "IN1".data, "[1Il]N1", "[1/I]N1 → IN1"⟩,
  ⟨.litClsLit "P".data ['I', '1'] "E".data, "PLE".data,
    "P[I1]E", "P[I/1]E → PLE  [I=L, 1=L]"⟩,
  ⟨.lit "028".data, "02B".data, "028", "028 → 02B       [8=B]"⟩,
  ⟨.lit "040".data, "04C".data, "040", "040 → 04C       [0=C]"⟩,
  ⟨.litLookNonDigit "0P".data, "OP".data,
    "0P(?=[^0-9])", "0P → OP         [O over-zeroed]"⟩,
  ⟨.lit "0TH".data, "OTH".data, "0TH", "0TH → OTH       [O over-zeroed]"⟩]

/-- The text component of `pat.subn(repl, text)`: scan left to right, replace
each non-overlapping leftmost match, continue after its end.  The scan
advances one character per step; `skip > 0` means the scanner is still
inside the span of a match already replaced, so the character is
swallowed and no new match is attempted there.  (The `1 ≤ L` guard only
shields the degenerate zero-width pattern, which no rule has.) -/
def pySubGo (pat : RulePat) (repl : List Char) :
    List Char → Nat → List Char
  | [], _ => []
  | _ :: cs, skip + 1 => pySubGo pat repl cs skip
  | c :: cs, 0 =>
    match matchRuleAt pat (c :: cs) with
    | some L =>
      if 1 ≤ L then repl ++ pySubGo pat repl cs (L - 1)
      else c :: pySubGo pat repl cs 0
    | none => c :: pySubGo pat repl cs 0

/-- The text component of `pat.subn(repl, text)`, from scan state 0. -/
def pySub (pat : RulePat) (repl : List Char) (s : List Char) : List Char :=
  pySubGo pat repl s 0

/-- The count component of `pat.subn(repl, text)`: the number of
non-overlapping matches replaced, scanning exactly as `pySubGo` does. -/
def pyCountGo (pat : RulePat) : List Char → Nat → Nat
  | [], _ => 0
  | _ :: cs, skip + 1 => pyCountGo pat cs skip
  | c :: cs, 0 =>
    match matchRuleAt pat (c :: cs) with
    | some L =>
      if 1 ≤ L then pyCountGo pat cs (L - 1) + 1
      else pyCountGo pat cs 0
    | none => pyCountGo pat cs 0

/-- The count component of `pat.subn(repl, text)`, from scan state 0. -/
def pyCount (pat : RulePat) (s : List Char) : Nat :=
  pyCountGo pat s 0

/-! ### The document-id pattern and segment correction
(src/ria.py lines 118-158) -/

/-- The table `SEG_TYPE = ["D", "M", "M", "M", "M", "M", "D"]`. -/
def SEG_TYPE : List Char := ['D', 'M', 'M', 'M', 'M', 'M', 'D']

/-- Python `str.replace` with a single-character pattern is exactly a character
map. -/
def charReplace (a b : Char) (s : List Char) : List Char :=
  s.map fun c => if c = a then b else c

/-- The source's `_fix_digit_seg`: `s.replace("O","0").replace("o","0")
.replace("I","1").replace("l","1").replace("L","1")`, innermost first. -/
def fix_digit_seg (s : List Char) : List Char :=
  charReplace 'L' '1' (charReplace 'l' '1' (charReplace 'I' '1'
    (charReplace 'o' '0' (charReplace 'O' '0' s))))

/-- Python `"-".join(segs)`. -/
def joinSegs (segs : List (List Char)) : List Char :=
  List.intercalate ['-'] segs

/-- The source's `_fix_doc_id`: zip the matched segments with `SEG_TYPE`, apply
`_fix_digit_seg` to the `'D'` segments, rejoin with hyphens, and collect
the `(seg_raw, seg_fixed)` pairs that actually changed.  (The source
builds both lists in one loop over the same zip; here the loop is split
into a `map` and a `filterMap` over that zip.) -/
def fix_doc_id (segs : List (List Char)) :
    List Char × List (String × String) :=
  ((joinSegs ((segs.zip SEG_TYPE).map fun p =>
      if p.2 = 'D' then fix_digit_seg p.1 else p.1)),
   ((segs.zip SEG_TYPE).filterMap fun p =>
      let fixed := if p.2 = 'D' then fix_digit_seg p.1 else p.1
      if fixed ≠ p.1 then some (String.mk p.1, String.mk fixed) else none))

/-- Greedy bounded repetition with backtracking: try to split `s` as
`g ++ r` with `lo ≤ g.length ≤ k`, all of `g` in class `p`, preferring
the longest `g`, and continue with `f g r`; on failure of the
continuation, backtrack to the next shorter length. -/
def trySegFrom {α : Type} (p : Char → Bool) (lo : Nat) (s : List Char)
    (f : List Char → List Char → Option α) : Nat → Option α
  | 0 => none
  | k + 1 =>
    match (if lo ≤ k + 1 ∧ k + 1 ≤ s.length ∧ (s.take (k + 1)).all p
           then f (s.take (k + 1)) (s.drop (k + 1)) else none) with
    | some a => some a
    | none => trySegFrom p lo s f k

/-- Consume a literal `-` and continue. -/
def expectDash {α : Type} (r : List Char) (f : List Char → Option α) :
    Option α :=
  match r with
  | c :: r2 => if c = '-' then f r2 else none
  | [] => none

/-- Match `DOC_ID_RE` at the head of `s`:
`(?<!\w)(\d{2,6})-(\w{2,4})-(\w{2,5})-(\w{2,3})-(\w{2,5})-(\w{2,5})-(\w{4,6})(?!\w)`.
`prevIsW` tells whether the character just before `s` is a word character
(the `(?<!\w)` lookbehind); the trailing `(?!\w)` inspects the head of
the remainder without consuming it.  Returns the seven captured segments
and the unconsumed remainder. -/
def matchDocIdAt (prevIsW : Bool) (s : List Char) :
    Option (List (List Char) × List Char) :=
  if prevIsW then none else
  trySegFrom isDigitChar 2 s (fun g1 r =>
    expectDash r (fun r => trySegFrom isWordChar 2 r (fun g2 r =>
      expectDash r (fun r => trySegFrom isWordChar 2 r (fun g3 r =>
        expectDash r (fun r => trySegFrom isWordChar 2 r (fun g4 r =>
          expectDash r (fun r => trySegFrom isWordChar 2 r (fun g5 r =>
            expectDash r (fun r => trySegFrom isWordChar 2 r (fun g6 r =>
              expectDash r (fun r => trySegFrom isWordChar 4 r (fun g7 r =>
                if (match r with | [] => true | c :: _ => !isWordChar c)
                then some ([g1, g2, g3, g4, g5, g6, g7], r)
                else none) 6)) 5)) 5)) 3)) 5)) 4)) 6

/-- The text component of `DOC_ID_RE.sub(_sub, text)`: replace every
non-overlapping match by its `_fix_doc_id` reconstruction.  The scan
advances one character per step carrying the `(?<!\w)` lookbehind state
`prevW`; `skip > 0` means the scanner is still inside the span of a
match already substituted, so the character is swallowed.  A match at
the current position consumes `(c :: cs).length - rest.length`
characters. -/
def docIdSubGo : List Char → Bool → Nat → List Char
  | [], _, _ => []
  | c :: cs, _, skip + 1 => docIdSubGo cs (isWordChar c) skip
  | c :: cs, prevW, 0 =>
    match matchDocIdAt prevW (c :: cs) with
    | some (segs, rest) =>
      (fix_doc_id segs).1 ++
        docIdSubGo cs (isWordChar c) ((c :: cs).length - rest.length - 1)
    | none => c :: docIdSubGo cs (isWordChar c) 0

/-- The text component of `DOC_ID_RE.sub(_sub, text)`, from the start of the
text (no preceding character, scan state 0). -/
def docIdSubText (s : List Char) : List Char :=
  docIdSubGo s false 0

/-- The segment lists of all non-overlapping `DOC_ID_RE` matches, in
match order — the matches visited by `DOC_ID_RE.sub`, scanning exactly
as `docIdSubGo` does. -/
def docIdMatchesGo : List Char → Bool → Nat → List (List (List Char))
  | [], _, _ => []
  | c :: cs, _, skip + 1 => docIdMatchesGo cs (isWordChar c) skip
  | c :: cs, prevW, 0 =>
    match matchDocIdAt prevW (c :: cs) with
    | some (segs, rest) =>
      segs :: docIdMatchesGo cs (isWordChar c) ((c :: cs).length - rest.length - 1)
    | none => docIdMatchesGo cs (isWordChar c) 0

/-- The `DOC_ID_RE` matches of `s`, from the start of the text. -/
def docIdMatches (s : List Char) : List (List (List Char)) :=
  docIdMatchesGo s false 0

/-! ### The page corrector (src/ria.py lines 165-199) -/

/-- The mutable state of one `PageCorrector`. -/
structure PageCorrector where
  page : Nat
  rule_hits : List (String × String × String × Nat)
  id_changes : List (String × String × List (String × String))
  total_fixes : Nat
deriving DecidableEq

/-- The fresh state `PageCorrector(page_num)`. -/
def initState (pg : Nat) : PageCorrector := ⟨pg, [], [], 0⟩

/-- One iteration of the `_apply_rules` loop: run `pat.subn`; on a
non-zero count record `(pat.pattern, repl, label, n)`, add `n` to the
total and take the new text, otherwise change nothing. -/
def ruleStep (acc : PageCorrector × List Char) (r : Rule) :
    PageCorrector × List Char :=
  if pyCount r.pat acc.2 ≠ 0 then
    ({ acc.1 with
        rule_hits := acc.1.rule_hits ++
          [(r.patStr, String.mk r.repl, r.label, pyCount r.pat acc.2)],
        total_fixes := acc.1.total_fixes + pyCount r.pat acc.2 },
     pySub r.pat r.repl acc.2)
  else acc

/-- The source's `PageCorrector._apply_rules`: fold the rule table in order, each rule
scanning the output of all earlier rules. -/
def apply_rules (st : PageCorrector) (text : List Char) :
    PageCorrector × List Char :=
  List.foldl ruleStep (st, text) RULES

/-- The report entry the `_sub` callback produces for one match, if any:
`some (raw_id, fixed_id, seg_changes)` when the reconstruction differs
from the raw match, `none` otherwise.  (`raw_id = m.group(0)` is the
hyphen-join of the captured segments, since the pattern is seven capture
groups separated by literal hyphens.) -/
def idEntry (segs : List (List Char)) :
    Option (String × String × List (String × String)) :=
  if (fix_doc_id segs).1 ≠ joinSegs segs then
    some (String.mk (joinSegs segs), String.mk (fix_doc_id segs).1,
      (fix_doc_id segs).2)
  else none

/-- The `_sub` callback's effect on the corrector state for one match. -/
def idStep (st : PageCorrector) (segs : List (List Char)) : PageCorrector :=
  match idEntry segs with
  | some e =>
    { st with id_changes := st.id_changes ++ [e],
              total_fixes := st.total_fixes + 1 }
  | none => st

/-- The source's `PageCorrector._apply_id_fixes`: `DOC_ID_RE.sub(_sub, text)`, where
the callback logs an `IdentifierChange` and bumps the counter for every
match whose reconstruction differs. -/
def apply_id_fixes (st : PageCorrector) (text : List Char) :
    PageCorrector × List Char :=
  ((docIdMatches text).foldl idStep st, docIdSubText text)

/-- The source's `PageCorrector.correct`: rules pass, then identifier pass on the
rules pass's output. -/
def correct (st : PageCorrector) (text : List Char) :
    PageCorrector × List Char :=
  apply_id_fixes (apply_rules st text).1 (apply_rules st text).2

/-- The corrected text of a fresh single-page run, as `process_file`
performs it (`corrector = PageCorrector(pg); fixed = corrector.correct(raw)`). -/
def correctText (text : List Char) : List Char :=
  (correct (initState 1) text).2

/-! ### The searchable-page synthesizer (src/ria.py lines 252-291;
duplicated in src/ocr_app.py lines 97-171 as `build_searchable_pdf` /
`_insert_invisible_text` with the same constants) -/

/-- Python `str.splitlines`, modelled as splitting on `\n` (the only line
terminator the OCR markdown in scope produces; the sole divergence, a
trailing empty piece for a trailing newline, is removed by the non-empty
filter below in either reading). -/
def splitLines (s : List Char) : List (List Char) :=
  s.foldr (fun c acc =>
    if c = '\n' then [] :: acc
    else
      match acc with
      | [] => [[c]]
      | a :: rest => (c :: a) :: rest) [[]]

/-- The filter `[l for l in text.splitlines() if l.strip()]`: keep the lines with at
least one non-whitespace character. -/
def nonEmptyLines (text : List Char) : List (List Char) :=
  (splitLines text).filter fun l => l.any fun c => !c.isWhitespace

/-- The insertion loop of `_insert_invisible_text`: line `i` gets
baseline `y = margin_y + i * step + font_size` with `margin_y = 20` and
`font_size = 10`; as soon as `y` exceeds the bottom margin `h_pt - 20`
the loop `break`s, dropping that line and every later one; otherwise the
line is inserted invisibly (`render_mode=3`) at `(margin_x, y) = (10, y)`. -/
def emitLines (step hPt : ℚ) :
    List (List Char) → Nat → List ((ℚ × ℚ) × List Char)
  | [], _ => []
  | l :: ls, i =>
    if (20 + i * step + 10 : ℚ) > hPt - 20 then []
    else ((10, 20 + i * step + 10), l) :: emitLines step hPt ls (i + 1)

/-- The source's `_insert_invisible_text`: the positioned invisible lines placed on a
page of height `hPt` points.  `line_h = font_size * 1.4 = 14`,
`usable_h = hPt - 2 * 20`; natural pitch `line_h` when
`len(lines) * line_h ≤ usable_h`, else the compressed pitch
`usable_h / len(lines)`.  (The per-line `page.insert_text` try/except
swallows failures of the external call only; the model records the
attempted insertions.) -/
def insert_invisible_text (text : List Char) (hPt : ℚ) :
    List ((ℚ × ℚ) × List Char) :=
  if nonEmptyLines text = [] then []
  else
    emitLines
      (if ((nonEmptyLines text).length : ℚ) * 14 ≤ hPt - 2 * 20 then 14
       else (hPt - 2 * 20) / ((nonEmptyLines text).length : ℚ))
      hPt (nonEmptyLines text) 0

/-- A rasterised input page: pixel dimensions plus the resolution found
in the image metadata, when any. -/
structure RasterPage where
  wPx : Nat
  hPx : Nat
  dpi : Option ℚ
deriving DecidableEq

/-- An output page: geometry in points, the source image placed over the
full page rectangle `Rect(0, 0, w_pt, h_pt)`, and the positioned
invisible text overlay. -/
structure OutputPage where
  width : ℚ
  height : ℚ
  image : RasterPage
  overlay : List ((ℚ × ℚ) × List Char)
deriving DecidableEq

/-- One iteration of the `build_pdf` loop: resolution from the image
metadata, where `or 96` makes both a missing and a zero value fall back
to 96; `w_pt = w_px * 72 / dpi` and likewise for the height; then the
image background and the invisible overlay. -/
def composePage (img : RasterPage) (text : List Char) : OutputPage :=
  let dpiVal : ℚ :=
    match img.dpi with
    | some d => if d = 0 then 96 else d
    | none => 96
  { width := img.wPx * 72 / dpiVal
    height := img.hPx * 72 / dpiVal
    image := img
    overlay := insert_invisible_text text (img.hPx * 72 / dpiVal) }

/-- Functions `build_pdf` (and `build_searchable_pdf`): one output page per element
of `zip(png_pages, texts)`, in input order. -/
def build_pdf (pngs : List RasterPage) (texts : List (List Char)) :
    List OutputPage :=
  (pngs.zip texts).map fun p => composePage p.1 p.2

/-- The digit-field substitution as the specification words it, for
comparison with the source's `_fix_digit_seg`: uppercase `O` and
lowercase `o` become `0`; `I`, `l`, `L` become `1`; every other character
is untouched. -/
def specDigitFix (c : Char) : Char :=
  if c = 'O' ∨ c = 'o' then '0'
  else if c = 'I' ∨ c = 'l' ∨ c = 'L' then '1'
  else c

/-! ## Helper lemmas -/

theorem fix_digit_seg_eq_map (s : List Char) :
    fix_digit_seg s = s.map specDigitFix := by
  simp only [fix_digit_seg, charReplace, List.map_map]
  congr 1
  funext c
  by_cases h1 : c = 'O'
  · subst h1; rfl
  by_cases h2 : c = 'o'
  · subst h2; rfl
  by_cases h3 : c = 'I'
  · subst h3; rfl
  by_cases h4 : c = 'l'
  · subst h4; rfl
  by_cases h5 : c = 'L'
  · subst h5; rfl
  simp [Function.comp, specDigitFix, h1, h2, h3, h4, h5]

theorem specDigitFix_idem (c : Char) :
    specDigitFix (specDigitFix c) = specDigitFix c := by
  by_cases h1 : c = 'O'
  · subst h1; rfl
  by_cases h2 : c = 'o'
  · subst h2; rfl
  by_cases h3 : c = 'I'
  · subst h3; rfl
  by_cases h4 : c = 'l'
  · subst h4; rfl
  by_cases h5 : c = 'L'
  · subst h5; rfl
  simp [specDigitFix, h1, h2, h3, h4, h5]

theorem specDigitFix_no_confusable (c : Char) :
    (!(specDigitFix c == 'O' || specDigitFix c == 'o' || specDigitFix c == 'I'
        || specDigitFix c == 'l' || specDigitFix c == 'L')) = true := by
  by_cases h1 : c = 'O'
  · subst h1; rfl
  by_cases h2 : c = 'o'
  · subst h2; rfl
  by_cases h3 : c = 'I'
  · subst h3; rfl
  by_cases h4 : c = 'l'
  · subst h4; rfl
  by_cases h5 : c = 'L'
  · subst h5; rfl
  simp [specDigitFix, h1, h2, h3, h4, h5]

theorem pySubGo_eq_of_count_zero (pat : RulePat) (repl : List Char) :
    ∀ s : List Char, pyCountGo pat s 0 = 0 → pySubGo pat repl s 0 = s := by
  intro s
  induction s with
  | nil => intro _; rfl
  | cons c cs ih =>
    intro h
    cases hm : matchRuleAt pat (c :: cs) with
    | some L =>
      simp only [pyCountGo, hm] at h
      simp only [pySubGo, hm]
      by_cases hL : 1 ≤ L
      · simp only [if_pos hL] at h
        omega
      · simp only [if_neg hL] at h ⊢
        rw [ih h]
    | none =>
      simp only [pyCountGo, hm] at h
      simp only [pySubGo, hm]
      rw [ih h]

theorem zip_getElem?_eq {α β : Type} :
    ∀ (l1 : List α) (l2 : List β) (i : Nat) (h1 : i < l1.length)
      (h2 : i < l2.length),
      (l1.zip l2)[i]? = some (l1.get ⟨i, h1⟩, l2.get ⟨i, h2⟩) := by
  intro l1
  induction l1 with
  | nil => intro l2 i h1 h2; simp at h1
  | cons x xs ih =>
    intro l2 i h1 h2
    cases l2 with
    | nil => simp at h2
    | cons y ys =>
      cases i with
      | zero => simp
      | succ n =>
        simpa using ih ys n (by simpa using h1) (by simpa using h2)

theorem trySegFrom_eq_some {α : Type} {p : Char → Bool} {lo : Nat}
    {s : List Char} {f : List Char → List Char → Option α} :
    ∀ {k : Nat} {a : α}, trySegFrom p lo s f k = some a →
      ∃ g r, s = g ++ r ∧ f g r = some a := by
  intro k
  induction k with
  | zero => intro a h; simp [trySegFrom] at h
  | succ k ih =>
    intro a h
    simp only [trySegFrom] at h
    by_cases hc : lo ≤ k + 1 ∧ k + 1 ≤ s.length ∧ (s.take (k + 1)).all p
    · rw [if_pos hc] at h
      cases hf : f (s.take (k + 1)) (s.drop (k + 1)) with
      | some b =>
        rw [hf] at h
        simp only [Option.some.injEq] at h
        exact ⟨s.take (k + 1), s.drop (k + 1),
          (List.take_append_drop _ _).symm, by rw [hf, h]⟩
      | none =>
        rw [hf] at h
        exact ih h
    · rw [if_neg hc] at h
      exact ih h

theorem expectDash_eq_some {α : Type} {r : List Char} {f : List Char → Option α}
    {a : α} (h : expectDash r f = some a) :
    ∃ r2, r = '-' :: r2 ∧ f r2 = some a := by
  cases r with
  | nil => simp [expectDash] at h
  | cons c r2 =>
    by_cases hc : c = '-'
    · subst hc
      exact ⟨r2, rfl, by simpa [expectDash] using h⟩
    · simp [expectDash, hc] at h

theorem joinSegs_seven (g1 g2 g3 g4 g5 g6 g7 : List Char) :
    joinSegs [g1, g2, g3, g4, g5, g6, g7] =
      g1 ++ '-' :: (g2 ++ '-' :: (g3 ++ '-' :: (g4 ++ '-' ::
        (g5 ++ '-' :: (g6 ++ '-' :: g7))))) := by
  simp [joinSegs, List.intercalate, List.intersperse, List.flatten]

theorem matchDocIdAt_consumes {b : Bool} {s : List Char}
    {segs : List (List Char)} {rest : List Char}
    (h : matchDocIdAt b s = some (segs, rest)) :
    s = joinSegs segs ++ rest ∧ joinSegs segs ≠ [] := by
  unfold matchDocIdAt at h
  by_cases hb : b
  · rw [if_pos hb] at h; cases h
  · rw [if_neg hb] at h
    obtain ⟨g1, r1, e1, h1⟩ := trySegFrom_eq_some h
    obtain ⟨r1d, ed1, h1d⟩ := expectDash_eq_some h1
    obtain ⟨g2, r2, e2, h2⟩ := trySegFrom_eq_some h1d
    obtain ⟨r2d, ed2, h2d⟩ := expectDash_eq_some h2
    obtain ⟨g3, r3, e3, h3⟩ := trySegFrom_eq_some h2d
    obtain ⟨r3d, ed3, h3d⟩ := expectDash_eq_some h3
    obtain ⟨g4, r4, e4, h4⟩ := trySegFrom_eq_some h3d
    obtain ⟨r4d, ed4, h4d⟩ := expectDash_eq_some h4
    obtain ⟨g5, r5, e5, h5⟩ := trySegFrom_eq_some h4d
    obtain ⟨r5d, ed5, h5d⟩ := expectDash_eq_some h5
    obtain ⟨g6, r6, e6, h6⟩ := trySegFrom_eq_some h5d
    obtain ⟨r6d, ed6, h6d⟩ := expectDash_eq_some h6
    obtain ⟨g7, r7, e7, h7⟩ := trySegFrom_eq_some h6d
    have h7x : (if (match r7 with | [] => true | c :: _ => !isWordChar c)
        then some ([g1, g2, g3, g4, g5, g6, g7], r7) else none)
        = some (segs, rest) := h7
    cases hw : (match r7 with | [] => true | c :: _ => !isWordChar c) with
    | false => rw [hw] at h7x; simp at h7x
    | true =>
      rw [hw] at h7x
      simp only [if_true, Option.some.injEq, Prod.mk.injEq] at h7x
      obtain ⟨hsegs, hrest⟩ := h7x
      subst hsegs
      subst hrest
      subst e1; subst ed1; subst e2; subst ed2; subst e3; subst ed3
      subst e4; subst ed4; subst e5; subst ed5; subst e6; subst ed6
      subst e7
      constructor
      · simp [joinSegs_seven, List.append_assoc]
      · simp [joinSegs_seven]

theorem docIdSubGo_skip_append :
    ∀ (x r : List Char) (p : Bool),
      docIdSubGo (x ++ r) p x.length =
        docIdSubGo r (x.foldl (fun _ c => isWordChar c) p) 0 := by
  intro x
  induction x with
  | nil => intro r p; rfl
  | cons c x ih =>
    intro r p
    simp only [List.cons_append, List.length_cons, docIdSubGo,
      List.foldl_cons]
    exact ih r (isWordChar c)

theorem docIdMatchesGo_skip_append :
    ∀ (x r : List Char) (p : Bool),
      docIdMatchesGo (x ++ r) p x.length =
        docIdMatchesGo r (x.foldl (fun _ c => isWordChar c) p) 0 := by
  intro x
  induction x with
  | nil => intro r p; rfl
  | cons c x ih =>
    intro r p
    simp only [List.cons_append, List.length_cons, docIdMatchesGo,
      List.foldl_cons]
    exact ih r (isWordChar c)

theorem docIdSubGo_id :
    ∀ (n : Nat) (s : List Char), s.length ≤ n → ∀ p : Bool,
      (∀ segs ∈ docIdMatchesGo s p 0, (fix_doc_id segs).1 = joinSegs segs) →
      docIdSubGo s p 0 = s := by
  intro n
  induction n with
  | zero =>
    intro s hs p _
    cases s with
    | nil => rfl
    | cons c cs => simp at hs
  | succ n ih =>
    intro s hs p h
    cases s with
    | nil => rfl
    | cons c cs =>
      cases hm : matchDocIdAt p (c :: cs) with
      | none =>
        simp only [docIdSubGo, hm]
        have h' : ∀ segs ∈ docIdMatchesGo cs (isWordChar c) 0,
            (fix_doc_id segs).1 = joinSegs segs := by
          intro segs hseg
          exact h segs (by simp only [docIdMatchesGo, hm]; exact hseg)
        rw [ih cs (by simp only [List.length_cons] at hs; omega)
          (isWordChar c) h']
      | some pr =>
        obtain ⟨segs, rest⟩ := pr
        obtain ⟨hsplit, hne⟩ := matchDocIdAt_consumes hm
        cases hj : joinSegs segs with
        | nil => exact absurd hj hne
        | cons jc jx =>
          rw [hj, List.cons_append] at hsplit
          injection hsplit with hcc hcs
          have hlen : (c :: cs).length - rest.length - 1 = jx.length := by
            rw [hcs]
            simp only [List.length_cons, List.length_append]
            omega
          simp only [docIdSubGo, hm, hlen]
          have hskip := docIdSubGo_skip_append jx rest (isWordChar c)
          have hmm : docIdMatchesGo (c :: cs) p 0 =
              segs :: docIdMatchesGo rest
                (jx.foldl (fun _ c => isWordChar c) (isWordChar c)) 0 := by
            simp only [docIdMatchesGo, hm, hlen]
            rw [hcs, docIdMatchesGo_skip_append]
          have hhead : (fix_doc_id segs).1 = joinSegs segs :=
            h segs (by rw [hmm]; exact List.mem_cons_self _ _)
          have htail : ∀ s' ∈ docIdMatchesGo rest
              (jx.foldl (fun _ c => isWordChar c) (isWordChar c)) 0,
              (fix_doc_id s').1 = joinSegs s' := by
            intro s' hs'
            exact h s' (by rw [hmm]; exact List.mem_cons_of_mem _ hs')
          have hrest : rest.length ≤ n := by
            have : cs.length ≤ n := by
              simp only [List.length_cons] at hs; omega
            rw [hcs] at this
            simp only [List.length_append] at this
            omega
          rw [hcs, hskip, ih rest hrest _ htail, hhead, hj, hcc]
          simp

theorem ruleStep_total_le (a : PageCorrector × List Char) (r : Rule) :
    a.1.total_fixes ≤ (ruleStep a r).1.total_fixes := by
  simp only [ruleStep]
  split
  · simp
  · exact le_refl _

theorem foldl_ruleStep_total_le :
    ∀ (rs : List Rule) (a : PageCorrector × List Char),
      a.1.total_fixes ≤ (List.foldl ruleStep a rs).1.total_fixes := by
  intro rs
  induction rs with
  | nil => intro a; simp
  | cons r rs ih =>
    intro a
    rw [List.foldl_cons]
    exact le_trans (ruleStep_total_le a r) (ih (ruleStep a r))

theorem foldl_ruleStep_fix :
    ∀ (rs : List Rule) (a : PageCorrector × List Char),
      (List.foldl ruleStep a rs).1.total_fixes = a.1.total_fixes →
      List.foldl ruleStep a rs = a := by
  intro rs
  induction rs with
  | nil => intro a _; rfl
  | cons r rs ih =>
    intro a h
    rw [List.foldl_cons] at h ⊢
    have hle2 := foldl_ruleStep_total_le rs (ruleStep a r)
    have hstep : ruleStep a r = a := by
      by_cases hc : pyCount r.pat a.2 = 0
      · simp [ruleStep, hc]
      · exfalso
        have hts : (ruleStep a r).1.total_fixes =
            a.1.total_fixes + pyCount r.pat a.2 := by
          simp [ruleStep, hc]
        omega
    rw [hstep] at h ⊢
    exact ih a h

theorem idStep_total_le (st : PageCorrector) (segs : List (List Char)) :
    st.total_fixes ≤ (idStep st segs).total_fixes := by
  simp only [idStep]
  cases he : idEntry segs <;> simp

theorem foldl_idStep_total_le :
    ∀ (ms : List (List (List Char))) (st : PageCorrector),
      st.total_fixes ≤ (List.foldl idStep st ms).total_fixes := by
  intro ms
  induction ms with
  | nil => intro st; simp
  | cons segs ms ih =>
    intro st
    rw [List.foldl_cons]
    exact le_trans (idStep_total_le st segs) (ih (idStep st segs))

theorem foldl_idStep_fix :
    ∀ (ms : List (List (List Char))) (st : PageCorrector),
      (List.foldl idStep st ms).total_fixes = st.total_fixes →
      ∀ segs ∈ ms, idEntry segs = none := by
  intro ms
  induction ms with
  | nil => intro st _ segs hs; simp at hs
  | cons segs0 ms ih =>
    intro st h
    cases he : idEntry segs0 with
    | some e =>
      exfalso
      have hstep : (idStep st segs0).total_fixes = st.total_fixes + 1 := by
        simp [idStep, he]
      have hle := foldl_idStep_total_le ms (idStep st segs0)
      rw [List.foldl_cons] at h
      omega
    | none =>
      have hstep : idStep st segs0 = st := by simp [idStep, he]
      rw [List.foldl_cons, hstep] at h
      intro s' hs'
      rcases List.mem_cons.1 hs' with rfl | hmem
      · exact he
      · exact ih st h s' hmem

theorem foldl_idStep_changes (ms : List (List (List Char))) :
    ∀ st : PageCorrector,
      (List.foldl idStep st ms).id_changes =
        st.id_changes ++ ms.filterMap idEntry ∧
      (List.foldl idStep st ms).total_fixes =
        st.total_fixes + (ms.filterMap idEntry).length := by
  induction ms with
  | nil => intro st; simp
  | cons segs ms ih =>
    intro st
    cases he : idEntry segs with
    | some e =>
      have hrec := ih { st with id_changes := st.id_changes ++ [e],
                                total_fixes := st.total_fixes + 1 }
      simp only [List.foldl_cons, idStep, he, List.filterMap_cons] at hrec ⊢
      constructor
      · rw [hrec.1]; simp
      · rw [hrec.2]; simp only [List.length_cons]; omega
    | none =>
      have hrec := ih st
      simp only [List.foldl_cons, idStep, he, List.filterMap_cons] at hrec ⊢
      exact hrec

/-! ## Claim theorems -/

/-- C5: for every field classified `Digit`, `_fix_digit_seg` is exactly
the character-by-character substitution the specification states:
every `O` and `o` becomes `0`, every `I`, `l`, `L` becomes `1`,
regardless of surrounding context within the field, and every other
character of the field is left unaltered. -/
theorem fix_digit_seg_spec (s : List Char) :
    fix_digit_seg s = s.map specDigitFix :=
  fix_digit_seg_eq_map s

/-- C10: the digit-field confusion fix is idempotent, and its output
contains no occurrence of `O`, `o`, `I`, `l`, or `L`. -/
theorem fix_digit_seg_idempotent (s : List Char) :
    fix_digit_seg (fix_digit_seg s) = fix_digit_seg s ∧
    (fix_digit_seg s).all
      (fun c => !(c == 'O' || c == 'o' || c == 'I' || c == 'l' || c == 'L'))
      = true := by
  constructor
  · rw [fix_digit_seg_eq_map, fix_digit_seg_eq_map, List.map_map]
    congr 1
    funext c
    exact specDigitFix_idem c
  · rw [fix_digit_seg_eq_map, List.all_map]
    refine List.all_eq_true.2 fun c _ => ?_
    exact specDigitFix_no_confusable c

/-- C6: in `_fix_doc_id` every `Mixed`-classified field (fields 2-6, so
in particular an org-code segment such as `8lR`) appears verbatim in the
reconstructed identifier; only the `Digit` fields 1 and 7 are passed
through `_fix_digit_seg`. -/
theorem fix_doc_id_mixed_verbatim (s1 s2 s3 s4 s5 s6 s7 : List Char) :
    (fix_doc_id [s1, s2, s3, s4, s5, s6, s7]).1 =
      joinSegs [fix_digit_seg s1, s2, s3, s4, s5, s6, fix_digit_seg s7] :=
  rfl

/-- C9: when the image list and the text list have different lengths the
synthesizer silently emits only `min` of the two counts — the pairing
`zip` truncates — so the page-count invariant holds exactly under the
equal-length precondition. -/
theorem build_pdf_truncates (pngs : List RasterPage)
    (texts : List (List Char)) :
    (build_pdf pngs texts).length = min pngs.length texts.length := by
  simp [build_pdf]

/-- C4: for equal-length inputs the synthesizer emits exactly one output
page per input page, and output page `i` is composed from image `i` and
text `i`, preserving input order. -/
theorem build_pdf_page_invariance (pngs : List RasterPage)
    (texts : List (List Char)) (hlen : pngs.length = texts.length) :
    (build_pdf pngs texts).length = pngs.length ∧
    ∀ (i : Nat) (hi : i < pngs.length) (ht : i < texts.length),
      (build_pdf pngs texts)[i]? =
        some (composePage (pngs.get ⟨i, hi⟩) (texts.get ⟨i, ht⟩)) := by
  constructor
  · simp [build_pdf, hlen]
  · intro i hi ht
    simp [build_pdf, zip_getElem?_eq pngs texts i hi ht]

/-- Witness for C4 at a concrete two-page input. -/
theorem build_pdf_page_invariance_witness :
    (build_pdf [⟨100, 200, some 100⟩, ⟨50, 50, none⟩]
      ["hi".data, []]).length = 2 ∧
    (build_pdf [⟨100, 200, some 100⟩, ⟨50, 50, none⟩] ["hi".data, []])[0]? =
      some (composePage
        (([⟨100, 200, some 100⟩, ⟨50, 50, none⟩] : List RasterPage).get
          ⟨0, by decide⟩)
        ((["hi".data, []] : List (List Char)).get ⟨0, by decide⟩)) := by
  have h := build_pdf_page_invariance [⟨100, 200, some 100⟩, ⟨50, 50, none⟩]
    ["hi".data, []] (by decide)
  exact ⟨h.1, h.2 0 (by decide) (by decide)⟩

/-- C8: rule application is total by construction (`apply_rules` is a
Lean function, so it terminates and returns a text and a hit list for
every input); it folds the rule table in order, each rule scanning the
output of all earlier rules; and a rule with zero matches leaves the
text unchanged at its step, contributes zero hits, and produces no
report entry. -/
theorem apply_rules_total_order_zero_match :
    (∀ (st : PageCorrector) (text : List Char),
      apply_rules st text = List.foldl ruleStep (st, text) RULES) ∧
    (∀ (r : Rule) (st : PageCorrector) (text : List Char),
      pyCount r.pat text = 0 →
        pySub r.pat r.repl text = text ∧ ruleStep (st, text) r = (st, text)) := by
  refine ⟨fun _ _ => rfl, fun r st text h =>
    ⟨pySubGo_eq_of_count_zero r.pat r.repl text h, ?_⟩⟩
  simp [ruleStep, h]

/-- Witness for C8: the first rule of the table has no match in `xyz`
and leaves state and text unchanged. -/
theorem apply_rules_zero_match_witness :
    pySub (RulePat.lit "0002B".data) "00028".data "xyz".data = "xyz".data ∧
    ruleStep (initState 1, "xyz".data)
        ⟨RulePat.lit "0002B".data, "00028".data, "0002B",
          "0002B → 00028  [B↔8]"⟩ =
      (initState 1, "xyz".data) :=
  apply_rules_total_order_zero_match.2
    ⟨RulePat.lit "0002B".data, "00028".data, "0002B", "0002B → 00028  [B↔8]"⟩
    (initState 1) "xyz".data (by decide)

/-- C7: for every identifier match whose reassembled form differs from
the raw matched text, exactly one `IdentifierChange` entry is appended
and the page's total-fix counter grows by exactly one — independent of
how many fields changed inside the identifier — while a match whose
reassembled form equals the raw text records nothing and leaves the
counter unchanged (`idEntry` is `none` exactly for unchanged matches). -/
theorem apply_id_fixes_per_match (st : PageCorrector) (text : List Char) :
    (apply_id_fixes st text).1.id_changes =
      st.id_changes ++ (docIdMatches text).filterMap idEntry ∧
    (apply_id_fixes st text).1.total_fixes =
      st.total_fixes + ((docIdMatches text).filterMap idEntry).length ∧
    ∀ segs, idEntry segs = none ↔ (fix_doc_id segs).1 = joinSegs segs := by
  refine ⟨(foldl_idStep_changes _ st).1, (foldl_idStep_changes _ st).2,
    fun segs => ?_⟩
  by_cases hc : (fix_doc_id segs).1 = joinSegs segs <;> simp [idEntry, hc]

/-- C1 counterexample: the Correction Engine is not idempotent.  For the
input `0P0PX` the first run rewrites the second `0P` (the first is
blocked by its digit lookahead), producing `0POPX`; on the second run
the rule `0P(?=[^0-9]) → OP` fires again on the first `0P`, now followed
by the letter `O`, giving `OPOPX`. -/
theorem correct_not_idempotent :
    correctText (correctText "0P0PX".data) ≠ correctText "0P0PX".data := by
  decide

/-- C1 amended: the engine is idempotent exactly on the inputs whose
corrected text admits no further hits — if a second fresh run on
`correct(t)` records zero total fixes (no rule hit and no identifier
change), then it returns `correct(t)` unchanged.  In general idempotence
fails (see the counterexample): a rule can re-fire on the output of a
previous run. -/
theorem correct_idempotent_of_no_second_hits (t : List Char)
    (h : (correct (initState 1) (correctText t)).1.total_fixes = 0) :
    correctText (correctText t) = correctText t := by
  set T := correctText t with hT
  simp only [correct, apply_rules] at h
  clear_value T
  rcases hA : List.foldl ruleStep (initState 1, T) RULES with ⟨st1, t1⟩
  rw [hA] at h
  simp only [apply_id_fixes] at h
  have hle := foldl_idStep_total_le (docIdMatches t1) st1
  have hst1 : st1.total_fixes = 0 := by omega
  have hAfix : List.foldl ruleStep (initState 1, T) RULES =
      ((initState 1 : PageCorrector), T) := by
    apply foldl_ruleStep_fix
    rw [hA]
    simpa [initState] using hst1
  have hpair : (st1, t1) = ((initState 1 : PageCorrector), T) :=
    hA.symm.trans hAfix
  have hst : st1 = initState 1 := congrArg Prod.fst hpair
  have ht : t1 = T := congrArg Prod.snd hpair
  rw [hst, ht] at h
  have hall := foldl_idStep_fix (docIdMatches T) (initState 1)
    (by simpa [initState] using h)
  have hfixed : ∀ segs ∈ docIdMatchesGo T false 0,
      (fix_doc_id segs).1 = joinSegs segs := by
    intro segs hs
    have hnone := hall segs hs
    by_cases hcne : (fix_doc_id segs).1 = joinSegs segs
    · exact hcne
    · simp [idEntry, hcne] at hnone
  have hid := docIdSubGo_id T.length T le_rfl false hfixed
  show correctText T = T
  simp only [correctText, correct, apply_rules]
  rw [hAfix]
  simp only [apply_id_fixes]
  exact hid

/-- Witness for C1 (amended): the empty page is fully corrected — a
fresh second run records zero fixes — and the engine is idempotent on
it. -/
theorem correct_idempotent_witness :
    (correct (initState 1) (correctText [])).1.total_fixes = 0 ∧
    correctText (correctText []) = correctText [] :=
  ⟨by decide, correct_idempotent_of_no_second_hits [] (by decide)⟩

/-- C2 counterexample: for raw input `26437-RIA-OOI-DR-CLG-PC-O0205` the
report does not record two identifier field edits: the seg3 repair
`OOI → 001` is performed by the rule table before identifier
reconstruction, so the identifier pass records exactly one field edit
(seg7). -/
theorem identifier_report_not_two_field_edits :
    (((correct (initState 1) "26437-RIA-OOI-DR-CLG-PC-O0205".data).1.id_changes.map
        fun e => e.2.2.length).sum) ≠ 2 := by
  decide

/-- C2 amended: the engine yields `26437-RIA-001-DR-CLG-PC-00205`; seg3
is repaired by the rule-table entry `OOI → 001` (one rule hit), and the
report records exactly one `IdentifierChange` with exactly one field
edit, `O0205 → 00205` for seg7; seg2 (`RIA`) and seg4 (`DR`) are
untouched; in total two fixes are counted. -/
theorem identifier_example_report :
    (correct (initState 1) "26437-RIA-OOI-DR-CLG-PC-O0205".data).2 =
      "26437-RIA-001-DR-CLG-PC-00205".data ∧
    (correct (initState 1) "26437-RIA-OOI-DR-CLG-PC-O0205".data).1.rule_hits =
      [("OOI", "001", "OOI → 001      [O=0, I=1]", 1)] ∧
    (correct (initState 1) "26437-RIA-OOI-DR-CLG-PC-O0205".data).1.id_changes =
      [("26437-RIA-001-DR-CLG-PC-O0205", "26437-RIA-001-DR-CLG-PC-00205",
        [("O0205", "00205")])] ∧
    (correct (initState 1) "26437-RIA-OOI-DR-CLG-PC-O0205".data).1.total_fixes
      = 2 := by
  refine ⟨by decide, by decide, by decide, by decide⟩

/-- C3 counterexample: on a page of height 68pt the usable span is
`68 - 2*20 = 28 = 2` line-heights; with 5 text lines the pitch is
compressed to `28/5`, but the fifth line's baseline
`20 + 4*(28/5) + 10 = 52.4` exceeds the bottom margin `68 - 20 = 48`,
so it is dropped: only 4 positioned lines are emitted, not 5. -/
theorem overflow_five_lines_not_all_emitted :
    (insert_invisible_text "a\nb\nc\nd\ne".data 68).length ≠ 5 := by
  have h : nonEmptyLines "a\nb\nc\nd\ne".data =
      [['a'], ['b'], ['c'], ['d'], ['e']] := by decide
  have he : insert_invisible_text "a\nb\nc\nd\ne".data 68 =
      [((10, 30), ['a']), ((10, 178/5), ['b']), ((10, 206/5), ['c']),
        ((10, 234/5), ['d'])] := by
    simp only [insert_invisible_text, h]
    norm_num [emitLines]
    intro hcon
    simp at hcon
  rw [he]
  simp

/-- C3 amended: when 5 non-empty lines meet a usable span of 2
line-heights (page height 68pt), the compositor does compress the pitch
to `usableHeight / lineCount = 28/5`, but it still drops every line
whose baseline `20 + i*step + 10` exceeds the bottom margin `48`: it
emits exactly the first 4 lines, at baselines `30, 35.6, 41.2, 46.8`,
and drops the fifth. -/
theorem compressed_pitch_emits_first_four (text : List Char)
    (l0 l1 l2 l3 l4 : List Char)
    (h : nonEmptyLines text = [l0, l1, l2, l3, l4]) :
    insert_invisible_text text 68 =
      [((10, 30), l0), ((10, 178/5), l1), ((10, 206/5), l2),
        ((10, 234/5), l3)] := by
  simp only [insert_invisible_text, h]
  norm_num [emitLines]
  intro hcon
  simp at hcon

/-- Witness for C3 (amended) at the concrete five-line page. -/
theorem compressed_pitch_emits_first_four_witness :
    nonEmptyLines "a\nb\nc\nd\ne".data =
      [['a'], ['b'], ['c'], ['d'], ['e']] ∧
    insert_invisible_text "a\nb\nc\nd\ne".data 68 =
      [((10, 30), ['a']), ((10, 178/5), ['b']), ((10, 206/5), ['c']),
        ((10, 234/5), ['d'])] :=
  ⟨by decide, compressed_pitch_emits_first_four "a\nb\nc\nd\ne".data
    ['a'] ['b'] ['c'] ['d'] ['e'] (by decide)⟩

end Ria
